import Mathlib

/-!
# Verification of the scrum-management hierarchy core

A shallow embedding of the ordering / traversal / date-rebase / recurrence /
cloning core of the `pm-rapi` service (`a_pm_rapi/models.py` and
`a_pm_rapi/api/utils.py`), together with proofs settling the specification
claims about it.

Modelling conventions:
* timestamps are absolute times in integer seconds (`Int`); `DATE_TRUNC('minute', ·)`
  and `datetime.replace(second=0, microsecond=0)` both become `truncMinute`;
* primary keys (UUIDs in the source) are `Nat`; fresh UUIDs drawn by `uuid4()`
  are modelled by a monotone counter threaded through the computation;
* a database table is a `List` of rows; Django's default `SoftDeleteManager`
  filter (`is_deleted=False, _template=False`) is the `visible` predicate;
* PostgreSQL recursive CTEs (`WITH RECURSIVE ... UNION ALL`) are level-by-level
  expansions bounded by a fuel argument (the table length is always enough fuel
  on cycle-free data);
* columns that no embedded code path reads (descriptions, colours, visibility
  JSON, etc.) are omitted from the row structures.
-/

namespace Scrum

/-- Truncation of a timestamp (in seconds) to minute granularity:
`DATE_TRUNC('minute', t)` / `t.replace(second=0, microsecond=0)`. -/
def truncMinute (t : Int) : Int := t - t % 60

/-- Row of `a_pm_rapi_task` (model `Task`), restricted to the columns the
embedded code paths read.  `template` is the `_template` column. -/
structure Task where
  id : Nat
  parent_task : Option Nat
  dependency : Option Nat
  predecessor : Option Nat
  project : Option Nat
  hlr : Option Nat
  task_type : Option Nat
  status : Option Nat
  name : String
  order : Int
  started : Option Int
  deadline : Option Int
  status_assigned_date : Option Int
  duration_estimate : Option Int
  duration_unit : Option String
  rrule_set : Bool
  client : Option Nat
  created_by : Option Nat
  updated_by : Option Nat
  is_deleted : Bool
  template : Bool
  deriving Repr, DecidableEq

/-- Row of `a_pm_rapi_taskstatus` (model `TaskStatus`). -/
structure TaskStatus where
  id : Nat
  parent : Option Nat
  project : Option Nat
  name : String
  order : Int
  rotting_days : Nat
  final_stage : Bool
  client : Option Nat
  created_by : Option Nat
  updated_by : Option Nat
  is_deleted : Bool
  template : Bool
  deriving Repr, DecidableEq

/-- Row of `a_pm_rapi_project` (model `Project`), restricted to what
`duplicate_project` reads. -/
structure Project where
  id : Nat
  name : String
  started : Option Int
  client : Option Nat
  created_by : Option Nat
  updated_by : Option Nat
  is_deleted : Bool
  template : Bool
  deriving Repr, DecidableEq

/-- Row of `a_pm_rapi_taskbacklog` (join model `TaskBacklog`). -/
structure TaskBacklog where
  id : Nat
  task : Nat
  backlog : Nat
  client : Option Nat
  is_deleted : Bool
  template : Bool
  deriving Repr, DecidableEq

/-- Row of `a_pm_rapi_taskresource` (join model `TaskResource`). -/
structure TaskResource where
  id : Nat
  task : Nat
  resource : Nat
  client : Option Nat
  is_deleted : Bool
  template : Bool
  deriving Repr, DecidableEq

/-- The `SoftDeleteManager` default queryset filter:
`is_deleted=False, _template=False`. -/
def Task.visible (t : Task) : Bool := !t.is_deleted && !t.template

/-- The `SoftDeleteManager` default queryset filter for task statuses. -/
def TaskStatus.visible (s : TaskStatus) : Bool := !s.is_deleted && !s.template

/-- The `SoftDeleteManager` default queryset filter for backlog links. -/
def TaskBacklog.visible (b : TaskBacklog) : Bool := !b.is_deleted && !b.template

/-- The `SoftDeleteManager` default queryset filter for resource links. -/
def TaskResource.visible (r : TaskResource) : Bool := !r.is_deleted && !r.template

/-- `ORDER BY "order"` on tasks (ties in unspecified relative order, as in
SQL). -/
def taskOrdLE (a b : Task) : Prop := a.order ≤ b.order

/-- `ORDER BY "-order"` on tasks. -/
def taskOrdGE (a b : Task) : Prop := b.order ≤ a.order

/-- `ORDER BY "order"` on task statuses. -/
def statusOrdLE (a b : TaskStatus) : Prop := a.order ≤ b.order

/-- `ORDER BY "-order"` on task statuses. -/
def statusOrdGE (a b : TaskStatus) : Prop := b.order ≤ a.order

instance : DecidableRel taskOrdLE :=
  fun a b => inferInstanceAs (Decidable (a.order ≤ b.order))

instance : DecidableRel taskOrdGE :=
  fun a b => inferInstanceAs (Decidable (b.order ≤ a.order))

instance : DecidableRel statusOrdLE :=
  fun a b => inferInstanceAs (Decidable (a.order ≤ b.order))

instance : DecidableRel statusOrdGE :=
  fun a b => inferInstanceAs (Decidable (b.order ≤ a.order))

instance : IsTotal Task taskOrdLE := ⟨fun a b => Int.le_total a.order b.order⟩

instance : IsTrans Task taskOrdLE := ⟨fun _ _ _ h1 h2 => le_trans h1 h2⟩

instance : IsTotal Task taskOrdGE := ⟨fun a b => Int.le_total b.order a.order⟩

instance : IsTrans Task taskOrdGE := ⟨fun _ _ _ h1 h2 => le_trans h2 h1⟩

instance : IsTotal TaskStatus statusOrdLE :=
  ⟨fun a b => Int.le_total a.order b.order⟩

instance : IsTrans TaskStatus statusOrdLE := ⟨fun _ _ _ h1 h2 => le_trans h1 h2⟩

instance : IsTotal TaskStatus statusOrdGE :=
  ⟨fun a b => Int.le_total b.order a.order⟩

instance : IsTrans TaskStatus statusOrdGE := ⟨fun _ _ _ h1 h2 => le_trans h2 h1⟩

section CTE

variable {α : Type}

/-- One level of a `WITH RECURSIVE` child walk: the rows whose parent column
points into the current frontier and which pass the per-level filter `p`. -/
def cteStep (parentOf : α → Option Nat) (db : List α) (p : α → Bool)
    (fr : List Nat) : List α :=
  db.filter fun t =>
    (match parentOf t with
     | some pid => fr.contains pid
     | none => false) && p t

/-- Level-by-level expansion of the recursive part of a
`WITH RECURSIVE ... UNION ALL` child query, starting from the frontier `fr`
of ids of the anchor rows.  The anchor rows themselves are not included,
matching the `[1:]` slicing every caller applies. -/
def cteLevels (idOf : α → Nat) (parentOf : α → Option Nat) (db : List α)
    (p : α → Bool) : Nat → List Nat → List α
  | 0, _ => []
  | fuel + 1, fr =>
    let next := cteStep parentOf db p fr
    next ++ cteLevels idOf parentOf db p fuel (next.map idOf)

/-- Chains of length `n ≥ 1` from a frontier id `r` down the child relation,
every chain node passing the filter `p`.  `ReachN … n r t` holds when `t` is
reachable from `r` in exactly `n` child steps, all through rows of `db`
satisfying `p`. -/
inductive ReachN (idOf : α → Nat) (parentOf : α → Option Nat) (db : List α)
    (p : α → Bool) : Nat → Nat → α → Prop
  | one {r : Nat} {t : α} : t ∈ db → p t = true → parentOf t = some r →
      ReachN idOf parentOf db p 1 r t
  | succ {r : Nat} {w t : α} {n : Nat} : w ∈ db → p w = true →
      parentOf w = some r → ReachN idOf parentOf db p n (idOf w) t →
      ReachN idOf parentOf db p (n + 1) r t

end CTE


/-! ## Traversal queries (`models.py`) -/

/-- `Task.get_child_branch` (`models.py:593`): recursive CTE anchored at the
row `id = self.id` (no filter on the anchor), stepping to children with
`is_deleted = false` — and, unlike the `TaskStatus` variant, **no**
`_template` filter — then dropping the anchor row (`[1:]`). -/
def Task.get_child_branch (db : List Task) (selfId : Nat) : List Task :=
  match db.find? (fun t => t.id == selfId) with
  | none => []
  | some _ =>
    cteLevels Task.id Task.parent_task db (fun t => !t.is_deleted)
      db.length [selfId]

/-- `TaskStatus.get_child_branch` (`models.py:389`): recursive CTE whose
anchor and step both require `is_deleted = false` and `_template = false`,
then dropping the anchor row (`[1:]`). -/
def TaskStatus.get_child_branch (db : List TaskStatus) (selfId : Nat) :
    List TaskStatus :=
  match db.find? (fun s => s.id == selfId && !s.is_deleted && !s.template) with
  | none => []
  | some _ =>
    cteLevels TaskStatus.id TaskStatus.parent db
      (fun s => !s.is_deleted && !s.template) db.length [selfId]

/-- `Task.get_child_branch_conflict_deadline_tasks` (`models.py:620`): the
proposed deadline is truncated to the minute by the caller
(`deadline.replace(second=0, microsecond=0)`), and the recursive step keeps
only children with `DATE_TRUNC('minute', tk.deadline) > %s`, `is_deleted =
false` and a matching `client` — so the walk is pruned at any child that
fails the date test. -/
def conflictDeadlineStep (deadline : Int) (client : Option Nat) (t : Task) :
    Bool :=
  (match t.deadline, client with
   | some d2, some c =>
     decide (truncMinute deadline < truncMinute d2) && t.client == some c
   | _, _ => false) && !t.is_deleted

def Task.get_child_branch_conflict_deadline_tasks (db : List Task)
    (selfId : Nat) (deadline : Int) (client : Option Nat) : List Task :=
  match db.find? (fun t => t.id == selfId) with
  | none => []
  | some _ =>
    cteLevels Task.id Task.parent_task db (conflictDeadlineStep deadline client)
      db.length [selfId]

/-- `Task.get_child_branch_conflict_started_tasks` (`models.py:605`): same
shape as the deadline variant, over the `started` column. -/
def conflictStartedStep (started : Int) (client : Option Nat) (t : Task) :
    Bool :=
  (match t.started, client with
   | some s2, some c =>
     decide (truncMinute started < truncMinute s2) && t.client == some c
   | _, _ => false) && !t.is_deleted

def Task.get_child_branch_conflict_started_tasks (db : List Task)
    (selfId : Nat) (started : Int) (client : Option Nat) : List Task :=
  match db.find? (fun t => t.id == selfId) with
  | none => []
  | some _ =>
    cteLevels Task.id Task.parent_task db (conflictStartedStep started client)
      db.length [selfId]

/-- The linear recursive CTE of `TaskStatus.get_ancestors` (`models.py:377`):
walk parent pointers from a given id upwards, every visited row (the anchor
included) filtered by `is_deleted = false AND _template = false`; rows are
produced node-first, root-last. -/
def ancestorWalk (db : List TaskStatus) : Nat → Option Nat → List TaskStatus
  | 0, _ => []
  | _, none => []
  | fuel + 1, some i =>
    match db.find? (fun s => s.id == i && !s.is_deleted && !s.template) with
    | none => []
    | some s => s :: ancestorWalk db fuel s.parent

/-- `TaskStatus.get_ancestors` (`models.py:377`). -/
def TaskStatus.get_ancestors (db : List TaskStatus) (selfId : Nat) :
    List TaskStatus :=
  ancestorWalk db (db.length + 1) (some selfId)

/-- `TaskStatus.get_full_order` (`models.py:370`): stringify the orders of the
ancestor chain, reverse it (root first), drop the **last** entry of the
reversed list, and dot-join; the `len > 1 / next(iter(...), '')` split of the
source is kept verbatim. -/
def TaskStatus.get_full_order (db : List TaskStatus) (selfId : Nat) : String :=
  let orders := (TaskStatus.get_ancestors db selfId).map fun s => toString s.order
  let rev := orders.reverse
  let init := rev.dropLast
  if init.length > 1 then String.intercalate "." init
  else (init.head?).getD ""

/-- Specification-side restatement of the ancestor chain, built root-first by
structural recursion (used to characterise `get_full_order`; compare
`ancestorWalk`, which builds the chain node-first). -/
def rootFirstAncestorWalk (db : List TaskStatus) :
    Nat → Option Nat → List TaskStatus
  | 0, _ => []
  | _, none => []
  | fuel + 1, some i =>
    match db.find? (fun s => s.id == i && !s.is_deleted && !s.template) with
    | none => []
    | some s => rootFirstAncestorWalk db fuel s.parent ++ [s]

/-- The proper ancestors of a node (itself excluded, root included),
root-first — what `get_full_order` actually prints. -/
def properAncestorsRootFirst (db : List TaskStatus) (selfId : Nat) :
    List TaskStatus :=
  match db.find? (fun s => s.id == selfId && !s.is_deleted && !s.template) with
  | none => []
  | some s => rootFirstAncestorWalk db db.length s.parent

/-! ## Row writes and stores

Each `.save()` is one single-row write; each `bulk_create` / `bulk_update` is
one multi-row statement.  A batch (`List Write`) is a group of writes that the
store applies atomically — a bare statement is a singleton batch, a
`transaction.atomic()` block is one batch holding all its statements. -/

/-- A persistence statement issued by the engine. -/
inductive Write where
  | putTask (t : Task)
  | putStatus (s : TaskStatus)
  | putProject (p : Project)
  | createTasks (ts : List Task)
  | updateTasks (ts : List Task)
  | createTaskBacklogs (bs : List TaskBacklog)
  | createTaskResources (rs : List TaskResource)
  | createTaskTypes (ids : List Nat)
  | createTaskStatusRows (ids : List Nat)
  | createHlrs (ids : List Nat)
  deriving Repr, DecidableEq

/-- The tables the embedding models. -/
structure Store where
  projects : List Project
  tasks : List Task
  statuses : List TaskStatus
  taskBacklogs : List TaskBacklog
  taskResources : List TaskResource
  deriving Repr, DecidableEq

/-- `.save()`: update the row with the same primary key, or insert. -/
def upsertTask (db : List Task) (r : Task) : List Task :=
  if db.any (fun x => x.id == r.id) then
    db.map fun x => if x.id == r.id then r else x
  else db ++ [r]

/-- `.save()` for a `TaskStatus` row. -/
def upsertStatus (db : List TaskStatus) (r : TaskStatus) : List TaskStatus :=
  if db.any (fun x => x.id == r.id) then
    db.map fun x => if x.id == r.id then r else x
  else db ++ [r]

/-- `.save()` for a `Project` row. -/
def upsertProject (db : List Project) (r : Project) : List Project :=
  if db.any (fun x => x.id == r.id) then
    db.map fun x => if x.id == r.id then r else x
  else db ++ [r]

/-- `bulk_update`: per-row `UPDATE` by primary key; rows whose key is absent
update nothing, no insertion happens. -/
def bulkUpdateTasks (db : List Task) (rows : List Task) : List Task :=
  rows.foldl (fun acc r => acc.map fun x => if x.id == r.id then r else x) db

/-- Apply one write to the store.  Writes against tables the embedding does
not carry (`TaskType`, `TaskStatus` clone ids, `HLR`) leave the store
unchanged. -/
def applyWrite (s : Store) : Write → Store
  | .putTask t => { s with tasks := upsertTask s.tasks t }
  | .putStatus st => { s with statuses := upsertStatus s.statuses st }
  | .putProject p => { s with projects := upsertProject s.projects p }
  | .createTasks ts => { s with tasks := s.tasks ++ ts }
  | .updateTasks ts => { s with tasks := bulkUpdateTasks s.tasks ts }
  | .createTaskBacklogs bs => { s with taskBacklogs := s.taskBacklogs ++ bs }
  | .createTaskResources rs => { s with taskResources := s.taskResources ++ rs }
  | .createTaskTypes _ => s
  | .createTaskStatusRows _ => s
  | .createHlrs _ => s

/-- Apply one atomic batch. -/
def applyBatch (s : Store) (b : List Write) : Store := b.foldl applyWrite s

/-- Apply a sequence of atomic batches. -/
def applyBatches (s : Store) (bs : List (List Write)) : Store :=
  bs.foldl applyBatch s

/-- A write sequence is all-or-nothing from `s` when interrupting it after any
batch leaves the store either untouched or fully updated. -/
def AllOrNothing (s : Store) (bs : List (List Write)) : Prop :=
  ∀ j : Nat, applyBatches s (bs.take j) = s ∨
    applyBatches s (bs.take j) = applyBatches s bs

/-! ## Order assignment and order rebase (`models.py:1047`, `api/utils.py:26`) -/

/-- The `pre_save` hook `set_order_for_task_status` (`models.py:1075`): when
the order is falsy (0) and a project is set, take the highest order among the
project's visible statuses (`order_by("-order").first()`), other parents and
tenants included, and add 1. -/
def set_order_for_task_status (db : List TaskStatus) (inst : TaskStatus) :
    TaskStatus :=
  if inst.order == 0 && inst.project.isSome then
    let top := (List.insertionSort statusOrdGE (db.filter fun s =>
        TaskStatus.visible s && s.project == inst.project && s.id != inst.id)).head?
    let base := match top with
      | some s => s.order
      | none => 0
    { inst with order := inst.order + base + 1 }
  else inst

/-- The `pre_save` hook `set_order_for_task_and_status_date`
(`models.py:1047`), first half: stamp `status_assigned_date` when the row is
new or its status changes. -/
def stamp_status_assigned_date (db : List Task) (inst : Task) (now : Int) :
    Task :=
  let task? := (db.filter Task.visible).find? fun t => t.id == inst.id
  let inst1 := match task? with
    | none => { inst with status_assigned_date := some now }
    | some t =>
      if t.status.isSome && t.status_assigned_date.isNone then
        { inst with status_assigned_date := some now }
      else inst
  match task? with
  | some t =>
    if inst1.status.isSome && t.status != inst1.status then
      { inst1 with status_assigned_date := some now }
    else inst1
  | none => inst1

/-- The `pre_save` hook `set_order_for_task_and_status_date`
(`models.py:1047`), for saves that do not set `no_order_signal`: after the
status-date stamping, when the order is falsy (0) assign `max(order of
visible tasks of the same project, the node excluded) + 1` — the sibling
scope is the **project only**, not `(project, parent_task, tenant)`. -/
def set_order_for_task_and_status_date (db : List Task) (inst : Task)
    (now : Int) : Task :=
  let inst2 := stamp_status_assigned_date db inst now
  if inst2.order == 0 then
    let top := (List.insertionSort taskOrdGE (db.filter fun t =>
        Task.visible t && t.project == inst2.project && t.id != inst2.id)).head?
    let base := match top with
      | some t => t.order
      | none => 0
    { inst2 with order := inst2.order + base + 1 }
  else inst2

/-- The claim-side default order: 1 plus the maximum order over the
non-deleted, non-template siblings sharing the node's full scope
`(project, parent_task, client)`, the node itself excluded. -/
def assignDefaultOrderSpec (db : List Task) (inst : Task) : Int :=
  let sibs := db.filter fun t =>
    Task.visible t && t.project == inst.project &&
      t.parent_task == inst.parent_task && t.client == inst.client &&
      t.id != inst.id
  (sibs.map Task.order).foldl max 0 + 1

/-- The reassigned sibling rows of `rebase_tasks_order` (`api/utils.py:52`):
visible tasks of the same `(parent_task, project, client)` scope with
`order >= order`, the moved task excluded, ascending by current order, the
`idx`-th reassigned to `order + idx + 1`. -/
def rebase_tasks_order_saves (db : List Task) (instId : Nat) (order : Int)
    (parent : Option Nat) (project : Option Nat) (client : Option Nat) :
    List Task :=
  let next_tasks := List.insertionSort taskOrdLE (db.filter fun t =>
    Task.visible t && decide (order ≤ t.order) && t.parent_task == parent &&
      t.project == project && t.client == client && t.id != instId)
  next_tasks.enum.map fun p => { p.2 with order := order + (p.1 + 1) }

/-- `rebase_tasks_order` (`api/utils.py:52`): each reassigned row is saved on
its own (`no_order_signal` suppresses the order hook). -/
def rebase_tasks_order (db : List Task) (instId : Nat) (order : Int)
    (parent : Option Nat) (project : Option Nat) (client : Option Nat) :
    List Task :=
  (rebase_tasks_order_saves db instId order parent project client).foldl
    upsertTask db

/-- The write trace of `rebase_tasks_order`: one single-row batch per
reassigned sibling, no enclosing transaction. -/
def rebase_tasks_order_trace (db : List Task) (instId : Nat) (order : Int)
    (parent : Option Nat) (project : Option Nat) (client : Option Nat) :
    List (List Write) :=
  (rebase_tasks_order_saves db instId order parent project client).map
    fun t => [Write.putTask t]

/-- `rebase_task_status` (`api/utils.py:26`): like the task version but for
statuses; each `.save()` runs the `set_order_for_task_status` hook against
the statuses table as already mutated by the earlier saves, and the saves are
not wrapped in a transaction. -/
def rebase_task_status_run (db0 : List TaskStatus) (instId : Nat) (order : Int)
    (parent : Option Nat) (project : Option Nat) (client : Option Nat) :
    List TaskStatus × List (List Write) :=
  let nexts := List.insertionSort statusOrdLE (db0.filter fun s =>
    TaskStatus.visible s && s.parent == parent && decide (order ≤ s.order) &&
      s.project == project && s.client == client && s.id != instId)
  nexts.enum.foldl
    (fun acc p =>
      let s1 := { p.2 with order := order + (p.1 + 1) }
      let s2 := set_order_for_task_status acc.1 s1
      (upsertStatus acc.1 s2, acc.2 ++ [[Write.putStatus s2]]))
    (db0, ([] : List (List Write)))

/-! ## Date rebase (`api/utils.py:73`) -/

/-- Option-valued traversal of a list, failing on the first `none` — the
Python loop that mutates each branch row in memory and raises on a missing
timestamp before anything is persisted. -/
def traverseOption : List Task → (Task → Option Task) → Option (List Task)
  | [], _ => some []
  | t :: rest, f =>
    match f t, traverseOption rest f with
    | some r, some rs => some (r :: rs)
    | _, _ => none

/-- `rebase_the_task_dates` (`api/utils.py:73`): over the descendant branch of
`parent_task`, add `difference` to `started` when `by == "started"`,
otherwise to `deadline` — only the anchored field moves — then persist the
rows with one `bulk_update(fields=["started", "deadline"])`.  A branch row
whose anchored field is `NULL` makes the Python loop raise (`None +
timedelta`), before anything is written: that is the `none` result. -/
def rebase_the_task_dates (db : List Task) (parentId : Nat) (difference : Int)
    (byF : String) : Option (List Task) :=
  let rows? := traverseOption (Task.get_child_branch db parentId) fun t =>
    if byF == "started" then
      t.started.map fun s => { t with started := some (s + difference) }
    else
      t.deadline.map fun d => { t with deadline := some (d + difference) }
  rows?.map (bulkUpdateTasks db)

/-- Write trace of `rebase_the_task_dates`: one `bulk_update` statement (or
nothing at all when the loop raises first). -/
def rebase_the_task_dates_trace (db : List Task) (parentId : Nat)
    (difference : Int) (byF : String) : List (List Write) :=
  let rows? := traverseOption (Task.get_child_branch db parentId) fun t =>
    if byF == "started" then
      t.started.map fun s => { t with started := some (s + difference) }
    else
      t.deadline.map fun d => { t with deadline := some (d + difference) }
  match rows? with
  | none => []
  | some rows => [[Write.updateTasks rows]]

/-! ## Recurrence generator (`api/utils.py:133-303`) -/

/-- The nested sub-task dictionary built by `get_sub_tasks`
(`api/utils.py:133`): a task, its backlog and resource links, and its own
sub-tasks. -/
inductive SubTree where
  | node (task : Task) (backlogs : List TaskBacklog)
      (resources : List TaskResource) (children : List SubTree)

/-- `get_sub_tasks` (`api/utils.py:133`): visible children of a parent, each
with its visible backlog/resource links and, recursively, its own sub-task
dictionary. -/
def get_sub_tasks (dbT : List Task) (dbB : List TaskBacklog)
    (dbR : List TaskResource) : Nat → Nat → List SubTree
  | 0, _ => []
  | fuel + 1, parentId =>
    (dbT.filter fun t => Task.visible t && t.parent_task == some parentId).map
      fun t =>
        SubTree.node t
          (dbB.filter fun b => TaskBacklog.visible b && b.task == t.id)
          (dbR.filter fun r => TaskResource.visible r && r.task == t.id)
          (get_sub_tasks dbT dbB dbR fuel t.id)

/-- Clone a list of backlog links onto a new owner task, drawing fresh ids
from the counter. -/
def cloneBacklogs (bs : List TaskBacklog) (newTask : Nat) (counter : Nat) :
    List TaskBacklog × Nat :=
  match bs with
  | [] => ([], counter)
  | b :: rest =>
    let (tail, c') := cloneBacklogs rest newTask (counter + 1)
    ({ b with id := counter, task := newTask } :: tail, c')

/-- Clone a list of resource links onto a new owner task. -/
def cloneResources (rs : List TaskResource) (newTask : Nat) (counter : Nat) :
    List TaskResource × Nat :=
  match rs with
  | [] => ([], counter)
  | r :: rest =>
    let (tail, c') := cloneResources rest newTask (counter + 1)
    ({ r with id := counter, task := newTask } :: tail, c')

/-- `create_tasks_from_parent_for_new_parent` (`api/utils.py:152`): deep-copy
every sub-task under a new parent with a fresh id, re-owning its backlog and
resource links, then recurse into its own sub-tasks and the remaining
siblings.  The fuel only bounds the recursion for Lean; every caller passes
`2 * (number of task rows) + 1`, which the traversal of a forest built by
`get_sub_tasks` never exhausts. -/
def create_tasks_from_parent_for_new_parent :
    Nat → List SubTree → Nat → Nat →
      List Task × List TaskBacklog × List TaskResource × Nat
  | 0, _, _, counter => ([], [], [], counter)
  | _ + 1, [], _, counter => ([], [], [], counter)
  | fuel + 1, SubTree.node t bs rs children :: rest, newParent, counter =>
    let cloneId := counter
    let clone := { t with id := cloneId, parent_task := some newParent }
    let (bs', c1) := cloneBacklogs bs cloneId (counter + 1)
    let (rs', c2) := cloneResources rs cloneId c1
    let (subT, subB, subR, c3) :=
      create_tasks_from_parent_for_new_parent fuel children cloneId c2
    let (restT, restB, restR, c4) :=
      create_tasks_from_parent_for_new_parent fuel rest newParent c3
    (clone :: (subT ++ restT), bs' ++ (subB ++ restB), rs' ++ (subR ++ restR), c4)

/-- The external recurrence-rule evaluator (spec §6): `occurrences dtstart i`
is the `i`-th occurrence of the rule anchored at `dtstart` (`i = 0` being the
anchor itself), `none` once the sequence is exhausted; `count` is the rule's
own bounded count (`rrulestr(...)._count`) when it has one. -/
structure RRuleEval where
  occurrences : Int → Nat → Option Int
  count : Option Nat

/-- Truthiness of `rule._count and count >= rule._count`. -/
def ruleCountReached (ruleCount : Option Nat) (count : Nat) : Bool :=
  match ruleCount with
  | some c => c != 0 && decide (c ≤ count)
  | none => false

/-- The `for i, recurrence_dt in enumerate(dates)` loop of
`repeated_task_creator` (`api/utils.py:247-287`), already past the skipped
`i = 0` occurrence.  One iteration: stop if the generator is exhausted or a
count bound is hit; otherwise clone the seed onto the occurrence timestamp
and recurse.  The fuel is `max_count + 1`, which the `count >= max_count`
break makes sufficient. -/
def repeatedLoop (cloneFuel : Nat) (inst : Task) (allSubs : List SubTree)
    (pBacklogs : List TaskBacklog) (pResources : List TaskResource)
    (diff : Int) (byF : String) (latestOrder : Int) (dates : Nat → Option Int)
    (ruleCount : Option Nat) (maxCount : Nat) :
    Nat → Nat → Nat → Nat → List Task × List TaskBacklog × List TaskResource × Nat
  | 0, _, _, counter => ([], [], [], counter)
  | fuel + 1, i, count, counter =>
    match dates i with
    | none => ([], [], [], counter)
    | some dt =>
      if count ≥ maxCount || ruleCountReached ruleCount count then
        ([], [], [], counter)
      else
        let newTask := { inst with
          id := counter
          name := "[" ++ toString (count + 1) ++ "] " ++ inst.name
          rrule_set := false
          order := latestOrder + (count : Int) + 1
          parent_task := some inst.id
          deadline := if byF == "deadline" then some dt else some (dt + diff)
          started := if byF == "deadline" then some (dt - diff) else some dt }
        let (bs, c1) := cloneBacklogs pBacklogs newTask.id (counter + 1)
        let (rs, c2) := cloneResources pResources newTask.id c1
        let (subT, subB, subR, c3) :=
          create_tasks_from_parent_for_new_parent cloneFuel allSubs newTask.id c2
        let (restT, restB, restR, c4) := repeatedLoop cloneFuel inst allSubs
          pBacklogs pResources diff byF latestOrder dates ruleCount maxCount
          fuel (i + 1) (count + 1) c3
        (newTask :: (subT ++ restT), bs ++ (subB ++ restB),
          rs ++ (subR ++ restR), c4)

/-- Python truthiness of `duration_estimate` (an integer, 0 falsy). -/
def estTruthy (e : Option Int) : Bool :=
  match e with
  | some v => v != 0
  | none => false

/-- Python truthiness of `duration_unit` (a string, `""` falsy). -/
def unitTruthy (u : Option String) : Bool :=
  match u with
  | some v => v != ""
  | none => false

/-- The `unit_map` of `repeated_task_creator` (`api/utils.py:223`), in
seconds. -/
def durationSeconds (unit : String) (est : Int) : Option Int :=
  if unit == "Weeks" then some (86400 * (est * 7))
  else if unit == "Days" then some (86400 * est)
  else if unit == "Hours" then some (3600 * est)
  else if unit == "Minutes" then some (60 * est)
  else none

/-- `repeated_task_creator` (`api/utils.py:193`).  Timestamps are absolute, so
`ensure_timezone_aware` is the identity here.  Returns `none` where the Python
returns bare `None` (preconditions unmet, zero/unknown time span, no derivable
start), otherwise the generated tasks with their cloned backlog and resource
links.  The recurrence rule is supplied through the external evaluator
`rrule` (spec §6); `inst.rrule_set` mirrors its presence. -/
def repeated_task_creator (dbT : List Task) (dbB : List TaskBacklog)
    (dbR : List TaskResource) (inst : Task) (rrule : Option RRuleEval)
    (byF : String) (maxCount : Nat) (freshBase : Nat) :
    Option (List Task × List TaskBacklog × List TaskResource) :=
  if rrule.isNone || inst.deadline.isNone ||
      !(inst.started.isSome ||
        (estTruthy inst.duration_estimate && unitTruthy inst.duration_unit)) then
    none
  else
    let allSubs := get_sub_tasks dbT dbB dbR dbT.length inst.id
    let pBacklogs := dbB.filter fun b => TaskBacklog.visible b && b.task == inst.id
    let pResources := dbR.filter fun r => TaskResource.visible r && r.task == inst.id
    let spans : Option Int × Option Int :=
      match inst.started, inst.deadline with
      | some s, some d => (some (d - s), some s)
      | _, _ =>
        match inst.deadline, inst.duration_unit, inst.duration_estimate with
        | some d, some u, some e =>
          if unitTruthy (some u) && estTruthy (some e) then
            match durationSeconds u e with
            | some delta => (some delta, some (d - delta))
            | none => (none, inst.started)
          else (none, inst.started)
        | _, _, _ => (none, inst.started)
    match spans with
    | (some diff, some started) =>
      if diff == 0 then none
      else
        match rrule with
        | none => none
        | some rule =>
          let dtstart := if byF == "deadline" then inst.deadline.getD 0 else started
          let dates := rule.occurrences dtstart
          let latest := (List.insertionSort taskOrdGE (dbT.filter fun t =>
            Task.visible t && t.parent_task == some inst.id)).head?
          let latestOrder := match latest with
            | some t => t.order
            | none => 0
          let (ts, bs, rs, _) := repeatedLoop (2 * dbT.length + 1) inst allSubs
            pBacklogs pResources diff byF latestOrder dates rule.count
            maxCount (maxCount + 1) 1 0 freshBase
          some (ts, bs, rs)
    | _ => none

/-- Write trace of `repeated_task_creator`: with `commit=True` the three
`bulk_create` calls run inside one `transaction.atomic()` block — a single
batch; with `commit=False`, or when the function returns early, nothing is
written. -/
def repeated_task_creator_trace (dbT : List Task) (dbB : List TaskBacklog)
    (dbR : List TaskResource) (inst : Task) (rrule : Option RRuleEval)
    (byF : String) (commit : Bool) (maxCount : Nat) (freshBase : Nat) :
    List (List Write) :=
  match repeated_task_creator dbT dbB dbR inst rrule byF maxCount freshBase with
  | none => []
  | some (ts, bs, rs) =>
    if commit then
      [[Write.createTasks ts, Write.createTaskBacklogs bs,
        Write.createTaskResources rs]]
    else []

/-! ## Subtree cloning (`api/utils.py:451`, `api/utils.py:562`)

`duplicate_project` / `duplicate_task_v2_for_project` are embedded over the
`Project` and `Task` tables (the claims under verification concern the task
graph); the `TaskType` / `TaskStatus` / `HLR` clones a task drags along are
tracked at the id level. -/

/-- The old-id → clone remap tables `duplicate_project` threads through
`duplicate_task_v2_for_project`; insertion order is kept because the final
`bulk_create` runs over `.values()` of these Python dicts. -/
structure DupRecords where
  task_type_to_create : List (Nat × Nat)
  task_status_to_create : List (Nat × Nat)
  hlrs_to_create : List (Nat × Nat)
  tasks_to_create : List (Nat × Task)
  deriving Repr, DecidableEq

/-- The empty remap table. -/
def DupRecords.empty : DupRecords := ⟨[], [], [], []⟩

/-- The `task_type` / `status` / `hlr` remap step of
`duplicate_task_v2_for_project`: reuse the already-cloned row or clone it now
(fresh id) and record it. -/
def remapAux (table : List (Nat × Nat)) (oldId : Nat) (counter : Nat) :
    Nat × List (Nat × Nat) × Nat :=
  match table.lookup oldId with
  | some newId => (newId, table, counter)
  | none => (counter, table ++ [(oldId, counter)], counter + 1)

/-- `duplicate_task_v2_for_project` (`api/utils.py:451`).  The fuel bounds the
`parent_task` recursion exactly as Python's recursion limit does.  The
`dependency` and `predecessor` branches reproduce the source faithfully: when
the reference is not the task itself, the code reads the local variable
`dependency` (resp. `predecessor`) before any assignment to it — an
unconditional `UnboundLocalError`, returned here as `Except.error`. -/
def duplicate_task_v2_for_project (db : List Task) (newProjectId : Nat)
    (oldStart newStart : Option Int) (tmpl : Bool)
    (userId clientId : Option Nat) :
    Nat → DupRecords → Task → Nat → Except String (Task × DupRecords × Nat)
  | 0, _, _, _ => .error "RecursionError: maximum recursion depth exceeded"
  | fuel + 1, records, task, counter => do
    let oldId := task.id
    let t1 : Task := { task with
      id := counter
      project := some newProjectId
      template := tmpl
      created_by := userId
      updated_by := userId
      client := clientId }
    let counter := counter + 1
    let t1 := match oldStart, newStart, t1.status_assigned_date with
      | some o, some ns, some sad =>
        { t1 with status_assigned_date := some (ns + (sad - o)) }
      | _, _, _ => t1
    let t1 := match oldStart, newStart, t1.started with
      | some o, some ns, some st =>
        { t1 with started := some (ns + (st - o)) }
      | _, _, _ => t1
    let t1 := match oldStart, newStart, t1.deadline with
      | some o, some ns, some dl =>
        { t1 with deadline := some (ns + (dl - o)) }
      | _, _, _ => t1
    let (t1, records, counter) := match t1.task_type with
      | none => (t1, records, counter)
      | some oldTT =>
        let (newTT, table, counter) :=
          remapAux records.task_type_to_create oldTT counter
        ({ t1 with task_type := some newTT },
          { records with task_type_to_create := table }, counter)
    let (t1, records, counter) := match t1.status with
      | none => (t1, records, counter)
      | some oldSt =>
        let (newSt, table, counter) :=
          remapAux records.task_status_to_create oldSt counter
        ({ t1 with status := some newSt },
          { records with task_status_to_create := table }, counter)
    let (t1, records, counter) := match t1.hlr with
      | none => (t1, records, counter)
      | some oldH =>
        let (newH, table, counter) := remapAux records.hlrs_to_create oldH counter
        ({ t1 with hlr := some newH },
          { records with hlrs_to_create := table }, counter)
    let (t1, records, counter) ← match t1.parent_task with
      | none => pure (t1, records, counter)
      | some oldParent =>
        if oldParent == oldId then
          pure ({ t1 with parent_task := some t1.id }, records, counter)
        else
          match records.tasks_to_create.lookup oldParent with
          | some pclone =>
            pure ({ t1 with parent_task := some pclone.id }, records, counter)
          | none =>
            match db.find? (fun r => r.id == oldParent) with
            | none => .error "Task.DoesNotExist"
            | some prow => do
              let (pclone, records, counter) ←
                duplicate_task_v2_for_project db newProjectId oldStart newStart
                  tmpl userId clientId fuel records prow counter
              pure ({ t1 with parent_task := some pclone.id }, records, counter)
    let (t1, records, counter) ← match t1.dependency with
      | none => pure (t1, records, counter)
      | some oldDep =>
        if oldDep == oldId then
          pure ({ t1 with dependency := some t1.id }, records, counter)
        else
          (.error "UnboundLocalError: dependency referenced before assignment" :
            Except String (Task × DupRecords × Nat))
    let (t1, records, counter) ← match t1.predecessor with
      | none => pure (t1, records, counter)
      | some oldPre =>
        if oldPre == oldId then
          pure ({ t1 with predecessor := some t1.id }, records, counter)
        else
          (.error "UnboundLocalError: predecessor referenced before assignment" :
            Except String (Task × DupRecords × Nat))
    let records :=
      { records with tasks_to_create := records.tasks_to_create ++ [(oldId, t1)] }
    pure (t1, records, counter)

/-- The source manager selection of `duplicate_project` (`api/utils.py:563`):
`manager = "template_objects" if not _template else "objects"` — duplicating
with `_template=False` reads the **template** rows, with `_template=True` the
visible rows. -/
def dupManagerFilter (tmpl : Bool) (isDel isTmpl : Bool) : Bool :=
  if tmpl then !isDel && !isTmpl else !isDel && isTmpl

/-- `duplicate_project` (`api/utils.py:562`), restricted to the project row
and the task graph: save the partial project clone first, then clone every
source task through `duplicate_task_v2_for_project`. -/
def duplicate_project (dbT : List Task) (project : Project)
    (attrs : Project → Project) (tmpl : Bool) (userId clientId : Option Nat)
    (counter : Nat) : Except String (Project × DupRecords × Nat) := do
  let oldStart := project.started
  let np := { project with template := tmpl }
  let np := attrs np
  let np := { np with
    id := counter
    created_by := userId
    updated_by := userId
    client := clientId }
  let counter := counter + 1
  let srcTasks := dbT.filter fun t =>
    dupManagerFilter tmpl t.is_deleted t.template && t.project == some project.id
  let (records, counter) ← srcTasks.foldlM
    (fun (acc : DupRecords × Nat) task => do
      match acc.1.tasks_to_create.lookup task.id with
      | some _ => pure acc
      | none =>
        let (_, records, counter) ←
          duplicate_task_v2_for_project dbT np.id oldStart np.started tmpl
            userId clientId (dbT.length + 1) acc.1 task acc.2
        pure (records, counter))
    (DupRecords.empty, counter)
  pure (np, records, counter)

/-- Write trace of `duplicate_project`: the early `new_project.save()`, then
one `bulk_create` per non-empty record table (empty `bulk_create` /
`bulk_update` calls issue no statement), the task rows created with their
self-referential keys nulled and restored by a final `bulk_update` — none of
it inside a transaction. -/
def duplicate_project_trace (dbT : List Task) (project : Project)
    (attrs : Project → Project) (tmpl : Bool) (userId clientId : Option Nat)
    (counter : Nat) : Except String (List (List Write)) := do
  let (np, records, _) ←
    duplicate_project dbT project attrs tmpl userId clientId counter
  let clones := records.tasks_to_create.map Prod.snd
  let nulled := clones.map fun t =>
    { t with parent_task := none, dependency := none, predecessor := none }
  let batchIf {β : Type} (l : List β) (w : Write) : List (List Write) :=
    if l.isEmpty then [] else [[w]]
  pure ([[Write.putProject np]]
    ++ batchIf records.task_type_to_create
        (Write.createTaskTypes (records.task_type_to_create.map Prod.snd))
    ++ batchIf records.task_status_to_create
        (Write.createTaskStatusRows (records.task_status_to_create.map Prod.snd))
    ++ batchIf records.hlrs_to_create
        (Write.createHlrs (records.hlrs_to_create.map Prod.snd))
    ++ batchIf clones (Write.createTasks nulled)
    ++ batchIf clones (Write.updateTasks clones))

/-! ## Concrete sample rows used by the example theorems -/

/-- A blank task row; examples override the fields they care about. -/
def blankTask : Task where
  id := 0
  parent_task := none
  dependency := none
  predecessor := none
  project := none
  hlr := none
  task_type := none
  status := none
  name := ""
  order := 0
  started := none
  deadline := none
  status_assigned_date := none
  duration_estimate := none
  duration_unit := none
  rrule_set := false
  client := none
  created_by := none
  updated_by := none
  is_deleted := false
  template := false

/-- A blank task-status row. -/
def blankStatus : TaskStatus where
  id := 0
  parent := none
  project := none
  name := ""
  order := 0
  rotting_days := 0
  final_stage := false
  client := none
  created_by := none
  updated_by := none
  is_deleted := false
  template := false

/-- A blank project row. -/
def blankProject : Project where
  id := 0
  name := ""
  started := none
  client := none
  created_by := none
  updated_by := none
  is_deleted := false
  template := false

/-- A weekly recurrence rule with no count bound: occurrence `i` is
`dtstart + i` weeks. -/
def weeklyRule : RRuleEval where
  occurrences := fun dtstart i => some (dtstart + 604800 * (i : Int))
  count := none

/-- The recurrence seed of the concrete expansion example: Day 0, started at
10:00, deadline at 12:00, and a recurrence rule. -/
def seedTask : Task :=
  { blankTask with
    id := 0
    name := "Seed"
    project := some 1
    client := some 1
    order := 1
    started := some 36000
    deadline := some 43200
    rrule_set := true }

/-- The seed's subtree: two children, one grandchild. -/
def c6db : List Task :=
  [seedTask,
   { blankTask with
     id := 1
     parent_task := some 0
     name := "A"
     project := some 1
     order := 1 },
   { blankTask with
     id := 2
     parent_task := some 0
     name := "B"
     project := some 1
     order := 2 },
   { blankTask with
     id := 3
     parent_task := some 1
     name := "G"
     project := some 1
     order := 1 }]

/-- The weekly expansion of `seedTask` anchored on its deadline, at most 3
occurrences, fresh ids from 100. -/
def c6result : Option (List Task × List TaskBacklog × List TaskResource) :=
  repeated_task_creator c6db [] [] seedTask (some weeklyRule) "deadline" 3 100

/-- The task rows generated by the example expansion. -/
def c6tasks : List Task := ((c6result).getD ([], [], [])).1

/-- Conflict-detection example: the middle task does not conflict with the
proposed deadline, its child does. -/
def c2mid : Task :=
  { blankTask with id := 1, parent_task := some 0, deadline := some 600, client := some 7 }

/-- The conflicting grandchild of the conflict-detection example. -/
def c2leaf : Task :=
  { blankTask with id := 2, parent_task := some 1, deadline := some 7200, client := some 7 }

/-- The conflict-detection example store: root, calm middle child, conflicting
grandchild. -/
def c2db : List Task := [{ blankTask with id := 0, client := some 7 }, c2mid, c2leaf]

/-- Root of the date-rebase example. -/
def c1root : Task := { blankTask with id := 0 }

/-- The single descendant of the date-rebase example, spanning 1000 – 5000. -/
def c1child : Task :=
  { blankTask with
    id := 1
    parent_task := some 0
    started := some 1000
    deadline := some 5000 }

/-- The date-rebase example store. -/
def c1db : List Task := [c1root, c1child]

/-- The store after shifting the branch start by 600 seconds. -/
def c1result : List Task := (rebase_the_task_dates c1db 0 600 "started").getD []

/-- The order-rebase example store: the moved node and two siblings whose
orders have a gap. -/
def c7db : List Task :=
  [{ blankTask with id := 0, order := 1 },
   { blankTask with id := 1, order := 1 },
   { blankTask with id := 2, order := 5 }]

/-- Order-rebase store for the atomicity example: two siblings get shifted,
hence two separate single-row writes. -/
def c4db : List Task :=
  [{ blankTask with id := 0, order := 1 },
   { blankTask with id := 1, order := 1 },
   { blankTask with id := 2, order := 2 }]

/-- The store the atomicity example starts from. -/
def store0 : Store := ⟨[], c4db, [], [], []⟩

/-- The project row of the clone atomicity example. -/
def c4proj : Project := { blankProject with id := 1 }

/-- The lone task of the cloned project. -/
def c4projTask : Task := { blankTask with id := 10, project := some 1 }

/-- The store the clone atomicity example starts from. -/
def store1 : Store := ⟨[c4proj], [c4projTask], [], [], []⟩

/-- The write trace `duplicate_project` emits for the one-task project. -/
def c4dpTrace : List (List Write) :=
  (duplicate_project_trace [c4projTask] c4proj (fun p => p) true none none
    100).toOption.getD []

/-! ## Lemmas about the recursive-CTE walk -/

section CTEProofs

variable {α : Type}

theorem mem_cteStep {parentOf : α → Option Nat} {db : List α}
    {p : α → Bool} {fr : List Nat} {t : α}
    (h : t ∈ cteStep parentOf db p fr) :
    t ∈ db ∧ p t = true ∧ ∃ pid, parentOf t = some pid ∧ pid ∈ fr := by
  unfold cteStep at h
  have h' := List.of_mem_filter h
  have hmem := List.mem_of_mem_filter h
  refine ⟨hmem, ?_, ?_⟩
  · exact (Bool.and_eq_true _ _ |>.mp h').2
  · have h1 := (Bool.and_eq_true _ _ |>.mp h').1
    cases hp : parentOf t with
    | none => rw [hp] at h1; simp at h1
    | some pid =>
      rw [hp] at h1
      exact ⟨pid, rfl, List.elem_iff.mp h1⟩

theorem cteStep_mem {parentOf : α → Option Nat} {db : List α}
    {p : α → Bool} {fr : List Nat} {t : α}
    (hdb : t ∈ db) (hp : p t = true) {pid : Nat}
    (hpar : parentOf t = some pid) (hfr : pid ∈ fr) :
    t ∈ cteStep parentOf db p fr := by
  unfold cteStep
  refine List.mem_filter.mpr ⟨hdb, ?_⟩
  rw [hpar]
  simp only [Bool.and_eq_true]
  exact ⟨by simpa using hfr, hp⟩

/-- Every row produced by the recursive walk passed the per-level filter and
comes from the table. -/
theorem mem_cteLevels {idOf : α → Nat} {parentOf : α → Option Nat} {db : List α} {p : α → Bool} {fuel : Nat}
    {fr : List Nat} {t : α} (h : t ∈ cteLevels idOf parentOf db p fuel fr) :
    t ∈ db ∧ p t = true := by
  induction fuel generalizing fr with
  | zero => simp [cteLevels] at h
  | succ n ih =>
    simp only [cteLevels, List.mem_append] at h
    cases h with
    | inl h => exact ⟨(mem_cteStep h).1, (mem_cteStep h).2.1⟩
    | inr h => exact ih h

/-- Soundness: everything the walk produces is reachable from some frontier id
through a filtered chain. -/
theorem reach_of_mem_cteLevels {idOf : α → Nat} {parentOf : α → Option Nat} {db : List α} {p : α → Bool} {fuel : Nat}
    {fr : List Nat} {t : α} (h : t ∈ cteLevels idOf parentOf db p fuel fr) :
    ∃ r ∈ fr, ∃ n, ReachN idOf parentOf db p n r t := by
  induction fuel generalizing fr with
  | zero => simp [cteLevels] at h
  | succ m ih =>
    simp only [cteLevels, List.mem_append] at h
    cases h with
    | inl h =>
      obtain ⟨hdb, hp, pid, hpar, hfr⟩ := mem_cteStep h
      exact ⟨pid, hfr, 1, ReachN.one hdb hp hpar⟩
    | inr h =>
      obtain ⟨r', hr', n, hreach⟩ := ih h
      obtain ⟨w, hw, rfl⟩ := List.mem_map.mp hr'
      obtain ⟨hwdb, hwp, pid, hwpar, hwfr⟩ := mem_cteStep hw
      exact ⟨pid, hwfr, n + 1, ReachN.succ hwdb hwp hwpar hreach⟩

/-- Completeness: a filtered chain of length at most the fuel is found by the
walk. -/
theorem mem_cteLevels_of_reach {idOf : α → Nat} {parentOf : α → Option Nat} {db : List α} {p : α → Bool} {n : Nat}
    {r : Nat} {t : α} (h : ReachN idOf parentOf db p n r t) :
    ∀ {fuel : Nat} {fr : List Nat}, n ≤ fuel → r ∈ fr →
      t ∈ cteLevels idOf parentOf db p fuel fr := by
  induction h with
  | one hdb hp hpar =>
    intro fuel fr hn hr
    match fuel, hn with
    | fuel + 1, _ =>
      simp only [cteLevels, List.mem_append]
      exact Or.inl (cteStep_mem hdb hp hpar hr)
  | succ hwdb hwp hwpar _ ih =>
    intro fuel fr hn hr
    match fuel, hn with
    | fuel + 1, hn =>
      simp only [cteLevels, List.mem_append]
      refine Or.inr (ih (Nat.le_of_succ_le_succ hn) ?_)
      exact List.mem_map.mpr ⟨_, cteStep_mem hwdb hwp hwpar hr, rfl⟩

/-- In a table whose parent pointers strictly decrease the id (a sufficient
cycle-freeness condition), every reachable row has an id strictly above the
root of the chain. -/
theorem reachN_root_lt {idOf : α → Nat} {parentOf : α → Option Nat} {db : List α} (hdec : ∀ x ∈ db, ∀ pid, parentOf x = some pid → pid < idOf x)
    {p : α → Bool} {n r : Nat} {t : α}
    (h : ReachN idOf parentOf db p n r t) : r < idOf t := by
  induction h with
  | one hdb _ hpar => exact hdec _ hdb _ hpar
  | succ hwdb _ hwpar _ ih =>
    exact Nat.lt_trans (hdec _ hwdb _ hwpar) ih

/-- Under the same cycle-freeness condition, a chain visits pairwise distinct
rows all above the root id. -/
theorem reachN_chainList {idOf : α → Nat} {parentOf : α → Option Nat} {db : List α} (hdec : ∀ x ∈ db, ∀ pid, parentOf x = some pid → pid < idOf x)
    {p : α → Bool} {n r : Nat} {t : α}
    (h : ReachN idOf parentOf db p n r t) :
    ∃ l : List α, l.length = n ∧ l.Nodup ∧ (∀ x ∈ l, x ∈ db ∧ r < idOf x) := by
  induction h with
  | @one r t hdb _ hpar =>
    exact ⟨[t], rfl, List.nodup_singleton t,
      by intro x hx; rw [List.mem_singleton] at hx; subst hx
         exact ⟨hdb, hdec _ hdb _ hpar⟩⟩
  | @succ r w t n hwdb hwp hwpar htail ih =>
    obtain ⟨l, hlen, hnodup, hmem⟩ := ih
    refine ⟨w :: l, by simp [hlen], ?_, ?_⟩
    · refine List.nodup_cons.mpr ⟨?_, hnodup⟩
      intro hwl
      exact absurd rfl (Nat.ne_of_lt (hmem w hwl).2)
    · intro x hx
      rcases List.mem_cons.mp hx with rfl | hx
      · exact ⟨hwdb, hdec _ hwdb _ hwpar⟩
      · exact ⟨(hmem x hx).1, Nat.lt_trans (hdec _ hwdb _ hwpar) (hmem x hx).2⟩

/-- Chain lengths are bounded by the table size on cycle-free tables. -/
theorem reachN_length_le {idOf : α → Nat} {parentOf : α → Option Nat} {db : List α} (hdec : ∀ x ∈ db, ∀ pid, parentOf x = some pid → pid < idOf x)
    {p : α → Bool} {n r : Nat} {t : α}
    (h : ReachN idOf parentOf db p n r t) : n ≤ db.length := by
  obtain ⟨l, hlen, hnodup, hmem⟩ := reachN_chainList hdec h
  have hsub : l ⊆ db := fun x hx => (hmem x hx).1
  calc n = l.length := hlen.symm
    _ ≤ db.length := (hnodup.subperm hsub).length_le

/-- The characterisation used throughout: with fuel `db.length`, membership in
the recursive walk from root `r` is exactly filtered-chain reachability. -/
theorem mem_cteLevels_iff_reach {idOf : α → Nat}
    {parentOf : α → Option Nat} {db : List α}
    (hdec : ∀ x ∈ db, ∀ pid, parentOf x = some pid → pid < idOf x)
    {p : α → Bool} {r : Nat} {t : α} :
    t ∈ cteLevels idOf parentOf db p db.length [r] ↔
      ∃ n, ReachN idOf parentOf db p n r t := by
  constructor
  · intro h
    obtain ⟨r', hr', n, hreach⟩ := reach_of_mem_cteLevels h
    rw [List.mem_singleton] at hr'
    subst hr'
    exact ⟨n, hreach⟩
  · rintro ⟨n, hreach⟩
    exact mem_cteLevels_of_reach hreach
      (reachN_length_le hdec hreach) (List.mem_singleton.mpr rfl)

end CTEProofs

/-! ## C9: the dotted order label -/

theorem ancestorWalk_reverse (db : List TaskStatus) :
    ∀ (fuel : Nat) (o : Option Nat),
      (ancestorWalk db fuel o).reverse = rootFirstAncestorWalk db fuel o := by
  intro fuel
  induction fuel with
  | zero => intro o; cases o <;> simp [ancestorWalk, rootFirstAncestorWalk]
  | succ n ih =>
    intro o
    cases o with
    | none => simp [ancestorWalk, rootFirstAncestorWalk]
    | some i =>
      simp only [ancestorWalk, rootFirstAncestorWalk]
      cases h : db.find? (fun s => s.id == i && !s.is_deleted && !s.template) with
      | none => simp
      | some s => simp [ih]

theorem intercalate_collapse (l : List String) :
    (if l.length > 1 then String.intercalate "." l else (l.head?).getD "") =
      String.intercalate "." l := by
  match l with
  | [] => rfl
  | [a] => rfl
  | a :: b :: t => simp

/-- C9 (amended): `GetFullOrderLabel` prints the orders of the node’s proper
ancestors in root-first order, dot-joined: the node’s own order is dropped but
the root’s order is the first segment, so a node whose chain of proper
ancestors (root included) has length `m` gets `m` dot-separated segments —
`d + 1` segments for a node at ancestor-depth `d`, not `d`. -/
theorem full_order_is_proper_ancestor_orders_root_first
    (db : List TaskStatus) (selfId : Nat) :
    TaskStatus.get_full_order db selfId =
      String.intercalate "."
        ((properAncestorsRootFirst db selfId).map fun s => toString s.order) := by
  unfold TaskStatus.get_full_order TaskStatus.get_ancestors properAncestorsRootFirst
  rw [← intercalate_collapse]
  simp only [ancestorWalk]
  cases h : db.find? (fun s => s.id == selfId && !s.is_deleted && !s.template) with
  | none => simp
  | some s =>
    simp only [List.map_cons, List.reverse_cons]
    rw [List.dropLast_concat]
    rw [← List.map_reverse, ancestorWalk_reverse]

/-- C9 (counterexample): a node directly under the root has zero ancestors
strictly between it and the root, so the claim predicts the empty label; the
code returns the root’s own order as a one-segment label. -/
theorem full_order_of_root_child_is_root_order :
    TaskStatus.get_full_order
      [{ blankStatus with id := 0, order := 5 },
       { blankStatus with id := 1, parent := some 0, order := 2 }] 1 = "5" ∧
    (TaskStatus.get_ancestors
      [{ blankStatus with id := 0, order := 5 },
       { blankStatus with id := 1, parent := some 0, order := 2 }] 1).length = 2 ∧
    ("5" : String) ≠ "" := by
  refine ⟨rfl, rfl, by decide⟩

/-! ## C5 and C2: descendant walks and conflict detection -/

theorem reachN_pred {α : Type} {idOf : α → Nat} {parentOf : α → Option Nat}
    {db : List α} {p : α → Bool} {n r : Nat} {t : α}
    (h : ReachN idOf parentOf db p n r t) : p t = true := by
  induction h with
  | one _ hp _ => exact hp
  | succ _ _ _ _ ih => exact ih

theorem mem_task_child_branch_iff {db : List Task} {rootId : Nat}
    (hdec : ∀ x ∈ db, ∀ pid, x.parent_task = some pid → pid < x.id)
    (t : Task) :
    t ∈ Task.get_child_branch db rootId ↔
      ((db.find? fun x => x.id == rootId).isSome ∧
        ∃ n, ReachN Task.id Task.parent_task db (fun x => !x.is_deleted) n
          rootId t) := by
  unfold Task.get_child_branch
  cases h : db.find? (fun x => x.id == rootId) with
  | none => simp
  | some r =>
    simp only [Option.isSome_some, true_and]
    exact mem_cteLevels_iff_reach hdec

theorem mem_status_child_branch_iff {db : List TaskStatus} {rootId : Nat}
    (hdec : ∀ x ∈ db, ∀ pid, x.parent = some pid → pid < x.id)
    (s : TaskStatus) :
    s ∈ TaskStatus.get_child_branch db rootId ↔
      ((db.find? fun x => x.id == rootId && !x.is_deleted && !x.template).isSome ∧
        ∃ n, ReachN TaskStatus.id TaskStatus.parent db
          (fun x => !x.is_deleted && !x.template) n rootId s) := by
  unfold TaskStatus.get_child_branch
  cases h : db.find? (fun x => x.id == rootId && !x.is_deleted && !x.template) with
  | none => simp
  | some r =>
    simp only [Option.isSome_some, true_and]
    exact mem_cteLevels_iff_reach hdec

/-- C5 (amended): on stores whose parent pointers strictly decrease ids (no
cycles), `get_child_branch` never returns the node itself and never returns a
tombstoned row, transitively — a row is returned exactly when it is reachable
through a chain of non-deleted rows (for `Task`) resp. non-deleted,
non-template rows (for `TaskStatus`).  Template `Task` rows are **not**
excluded: only the `TaskStatus` walk filters `_template`. -/
theorem child_branch_excludes_root_and_deleted (db : List Task)
    (dbS : List TaskStatus) (rootId : Nat)
    (hdec : ∀ x ∈ db, ∀ pid, x.parent_task = some pid → pid < x.id)
    (hdecS : ∀ x ∈ dbS, ∀ pid, x.parent = some pid → pid < x.id) :
    (∀ t ∈ Task.get_child_branch db rootId,
      t.is_deleted = false ∧ rootId < t.id) ∧
    (∀ t, t ∈ Task.get_child_branch db rootId ↔
      ((db.find? fun x => x.id == rootId).isSome ∧
        ∃ n, ReachN Task.id Task.parent_task db (fun x => !x.is_deleted) n
          rootId t)) ∧
    (∀ s ∈ TaskStatus.get_child_branch dbS rootId,
      s.is_deleted = false ∧ s.template = false ∧ rootId < s.id) ∧
    (∀ s, s ∈ TaskStatus.get_child_branch dbS rootId ↔
      ((dbS.find? fun x => x.id == rootId && !x.is_deleted && !x.template).isSome ∧
        ∃ n, ReachN TaskStatus.id TaskStatus.parent dbS
          (fun x => !x.is_deleted && !x.template) n rootId s)) := by
  refine ⟨?_, fun t => mem_task_child_branch_iff hdec t, ?_,
    fun s => mem_status_child_branch_iff hdecS s⟩
  · intro t ht
    obtain ⟨-, n, hreach⟩ := (mem_task_child_branch_iff hdec t).mp ht
    have hp := reachN_pred hreach
    exact ⟨by simpa using hp, reachN_root_lt hdec hreach⟩
  · intro s hs
    obtain ⟨-, n, hreach⟩ := (mem_status_child_branch_iff hdecS s).mp hs
    have hp := reachN_pred hreach
    have hp' := Bool.and_eq_true _ _ |>.mp hp
    exact ⟨by simpa using hp'.1, by simpa using hp'.2,
      reachN_root_lt hdecS hreach⟩

theorem child_branch_excludes_root_and_deleted_witness :
    ({ blankTask with id := 1, parent_task := some 0 } : Task).is_deleted = false ∧
      0 < ({ blankTask with id := 1, parent_task := some 0 } : Task).id :=
  (child_branch_excludes_root_and_deleted
    [{ blankTask with id := 0 },
     { blankTask with id := 1, parent_task := some 0 }] [] 0
    (by decide) (by decide)).1
    { blankTask with id := 1, parent_task := some 0 } (by decide)

/-- C5 (counterexample): `Task.get_child_branch` returns a child whose
`_template` flag is set — the task walk never filters templates. -/
theorem task_child_branch_includes_template_child :
    Task.get_child_branch
      [{ blankTask with id := 0 },
       { blankTask with id := 1, parent_task := some 0, template := true }] 0 =
      [{ blankTask with id := 1, parent_task := some 0, template := true }] ∧
    ({ blankTask with id := 1, parent_task := some 0, template := true } : Task).template
      = true := by
  exact ⟨by decide, rfl⟩

/-- C2 (amended): the conflict walk returns exactly the rows reachable from
the node through chains every element of which conflicts (minute-truncated
`deadline` strictly after the minute-truncated proposed date), is not
tombstoned, and belongs to the tenant — so a conflicting grandchild behind a
non-conflicting parent is *not* reported, because the recursive query prunes
at the calm parent. -/
theorem mem_conflict_deadline_iff (db : List Task) (rootId : Nat)
    (deadline : Int) (client : Option Nat)
    (hdec : ∀ x ∈ db, ∀ pid, x.parent_task = some pid → pid < x.id)
    (t : Task) :
    t ∈ Task.get_child_branch_conflict_deadline_tasks db rootId deadline client ↔
      ((db.find? fun x => x.id == rootId).isSome ∧
        ∃ n, ReachN Task.id Task.parent_task db
          (conflictDeadlineStep deadline client) n rootId t) := by
  unfold Task.get_child_branch_conflict_deadline_tasks
  cases h : db.find? (fun x => x.id == rootId) with
  | none => simp
  | some r =>
    simp only [Option.isSome_some, true_and]
    exact mem_cteLevels_iff_reach hdec

theorem mem_conflict_deadline_iff_witness :
    ∃ n, ReachN Task.id Task.parent_task c2db
      (conflictDeadlineStep 0 (some 7)) n 0 c2mid :=
  ((mem_conflict_deadline_iff c2db 0 0 (some 7) (by decide) c2mid).mp
    (by decide)).2

/-- C2 (counterexample): with a proposed deadline the middle child meets but
the grandchild violates, the query reports nothing at all, although the
grandchild is a strict descendant whose minute-truncated deadline lies
strictly after the proposal. -/
theorem conflict_deadline_tasks_misses_grandchild_behind_calm_parent :
    Task.get_child_branch_conflict_deadline_tasks c2db 0 3600 (some 7) = [] ∧
    ReachN Task.id Task.parent_task c2db (fun _ => true) 2 0 c2leaf ∧
    truncMinute 3600 < truncMinute ((7200 : Int)) ∧ c2leaf.deadline = some 7200 := by
  refine ⟨by decide, ?_, by decide, rfl⟩
  exact ReachN.succ (w := c2mid) (by decide) rfl rfl
    (ReachN.one (by decide) rfl rfl)

/-! ## C10, C3 and C6 -/

/-- C10: when the seed has a rule, a deadline and a started equal to the
deadline, the derived span is zero seconds, `if not time_diff_sec` treats the
0 like an unmet precondition, and the generator returns `None` without
creating anything. -/
theorem repeated_task_creator_zero_span_returns_none
    (dbT : List Task) (dbB : List TaskBacklog) (dbR : List TaskResource)
    (inst : Task) (rule : RRuleEval) (byF : String) (maxCount freshBase : Nat)
    (d : Int) (hd : inst.deadline = some d) (hs : inst.started = some d) :
    repeated_task_creator dbT dbB dbR inst (some rule) byF maxCount freshBase =
      none := by
  unfold repeated_task_creator
  simp [hd, hs]

theorem repeated_task_creator_zero_span_witness :
    repeated_task_creator [] [] []
      { blankTask with started := some 100, deadline := some 100 }
      (some weeklyRule) "deadline" 3 0 = none :=
  repeated_task_creator_zero_span_returns_none [] [] [] _ weeklyRule
    "deadline" 3 0 100 rfl rfl

/-- C3 (code evaluated at the failing input): cloning a task whose
`dependency` points to a *different* task always fails — the source assigns
the remap lookup to `parent_task` but then tests and uses the never-assigned
local `dependency`, an unconditional `UnboundLocalError` — while the
self-pointing case is handled and does remap onto the clone itself. -/
theorem duplicate_task_v2_dependency_raises_unbound_local :
    duplicate_task_v2_for_project
      [{ blankTask with id := 0, dependency := some 1, project := some 1 },
       { blankTask with id := 1, project := some 1 }] 5 none none true none none
      3 DupRecords.empty
      { blankTask with id := 0, dependency := some 1, project := some 1 } 100 =
      .error "UnboundLocalError: dependency referenced before assignment" ∧
    (duplicate_task_v2_for_project
      [{ blankTask with id := 0, dependency := some 0, project := some 1 }] 5
      none none true none none 3 DupRecords.empty
      { blankTask with id := 0, dependency := some 0, project := some 1 }
      100).toOption.map (fun r => (r.1.id, r.1.dependency)) =
      some (100, some 100) := by
  exact ⟨rfl, rfl⟩

/-- C6: the weekly expansion of the concrete seed (started Day0 10:00,
deadline Day0 12:00, two children and one grandchild) with
`by="deadline"`, `maxCount=3` yields exactly three instances parented on the
seed, their deadlines on Day 7 / 14 / 21 at 12:00 and starteds at 10:00, each
instance carrying a full clone of the seed’s subtree (2 children + 1
grandchild, the same counts as the original), 12 created rows in total. -/
theorem repeated_task_creator_weekly_three_instances :
    c6result.isSome = true ∧
    ((c6tasks.filter fun t => t.parent_task == some 0).map fun t =>
        (t.name, t.started, t.deadline)) =
      [("[1] Seed", some 640800, some 648000),
       ("[2] Seed", some 1245600, some 1252800),
       ("[3] Seed", some 1850400, some 1857600)] ∧
    c6tasks.length = 12 ∧
    ((c6db.filter fun t => t.parent_task == some 0).length = 2 ∧
      (c6db.filter fun t => t.parent_task == some 1).length = 1) ∧
    ((c6tasks.filter fun t => t.parent_task == some 100).length = 2 ∧
      (c6tasks.filter fun t => t.parent_task == some 101).length = 1 ∧
      (c6tasks.filter fun t => t.parent_task == some 104).length = 2 ∧
      (c6tasks.filter fun t => t.parent_task == some 105).length = 1 ∧
      (c6tasks.filter fun t => t.parent_task == some 108).length = 2 ∧
      (c6tasks.filter fun t => t.parent_task == some 109).length = 1) := by
  decide

/-! ## Lemmas about row writes -/

theorem mem_bulkUpdateTasks_of_not_mem {rows : List Task} :
    ∀ {db : List Task} {t : Task}, t ∈ db → (∀ r ∈ rows, r.id ≠ t.id) →
      t ∈ bulkUpdateTasks db rows := by
  induction rows with
  | nil => intro db t ht _; simpa [bulkUpdateTasks] using ht
  | cons r rest ih =>
    intro db t ht hid
    show t ∈ bulkUpdateTasks (db.map fun x => if x.id == r.id then r else x) rest
    refine ih ?_ fun r' hr' => hid r' (List.mem_cons_of_mem _ hr')
    refine List.mem_map.mpr ⟨t, ht, ?_⟩
    have : (t.id == r.id) = false := by
      simpa using fun h => hid r (List.mem_cons_self _ _) (by simp [h])
    simp [this]

theorem id_bulkUpdate_step (r x : Task) :
    (if x.id == r.id then r else x).id = x.id := by
  by_cases h : x.id = r.id <;> simp [h]

theorem mem_bulkUpdateTasks_of_mem {rows : List Task} :
    ∀ {db : List Task} {r : Task}, r ∈ rows →
      (∀ r' ∈ rows, r'.id = r.id → r' = r) → (∃ x ∈ db, x.id = r.id) →
      r ∈ bulkUpdateTasks db rows := by
  induction rows with
  | nil => intro db r hr; cases hr
  | cons r0 rest ih =>
    intro db r hr huniq hex
    show r ∈ bulkUpdateTasks (db.map fun x => if x.id == r0.id then r0 else x) rest
    by_cases hmem : r ∈ rest
    · refine ih hmem (fun r' h' he => huniq r' (List.mem_cons_of_mem _ h') he) ?_
      obtain ⟨x, hx, hxid⟩ := hex
      exact ⟨_, List.mem_map.mpr ⟨x, hx, rfl⟩, by rw [id_bulkUpdate_step]; exact hxid⟩
    · have hr0 : r = r0 := by
        rcases List.mem_cons.mp hr with h | h
        · exact h
        · exact absurd h hmem
      subst hr0
      obtain ⟨x, hx, hxid⟩ := hex
      have hmem0 : r ∈ db.map fun x => if x.id == r.id then r else x := by
        refine List.mem_map.mpr ⟨x, hx, ?_⟩
        simp [hxid]
      refine mem_bulkUpdateTasks_of_not_mem hmem0 fun r' hr' heq => ?_
      have hr'eq := huniq r' (List.mem_cons_of_mem _ hr') heq
      exact hmem (hr'eq ▸ hr')

theorem mem_foldl_upsert_of_not_mem {saves : List Task} :
    ∀ {db : List Task} {t : Task}, t ∈ db → (∀ r ∈ saves, r.id ≠ t.id) →
      t ∈ saves.foldl upsertTask db := by
  induction saves with
  | nil => intro db t ht _; simpa using ht
  | cons r rest ih =>
    intro db t ht hid
    show t ∈ rest.foldl upsertTask (upsertTask db r)
    refine ih ?_ fun r' hr' => hid r' (List.mem_cons_of_mem _ hr')
    unfold upsertTask
    split
    · refine List.mem_map.mpr ⟨t, ht, ?_⟩
      have : (t.id == r.id) = false := by
        simpa using fun h => hid r (List.mem_cons_self _ _) (by simp [h])
      simp [this]
    · exact List.mem_append_left _ ht

theorem mem_upsertTask_self (db : List Task) (r : Task) :
    r ∈ upsertTask db r := by
  unfold upsertTask
  split
  · next h =>
    obtain ⟨x, hx, hxid⟩ := List.any_eq_true.mp h
    exact List.mem_map.mpr ⟨x, hx, by simp [hxid]⟩
  · exact List.mem_append_right _ (List.mem_singleton.mpr rfl)

theorem mem_foldl_upsert_of_mem {saves : List Task} :
    ∀ {db : List Task} {r : Task}, r ∈ saves →
      (∀ r' ∈ saves, r'.id = r.id → r' = r) →
      r ∈ saves.foldl upsertTask db := by
  induction saves with
  | nil => intro db r hr; cases hr
  | cons r0 rest ih =>
    intro db r hr huniq
    show r ∈ rest.foldl upsertTask (upsertTask db r0)
    by_cases hmem : r ∈ rest
    · exact ih hmem fun r' h' he => huniq r' (List.mem_cons_of_mem _ h') he
    · have hr0 : r = r0 := by
        rcases List.mem_cons.mp hr with h | h
        · exact h
        · exact absurd h hmem
      subst hr0
      refine mem_foldl_upsert_of_not_mem (mem_upsertTask_self db r) ?_
      intro r' hr' heq
      have hr'eq := huniq r' (List.mem_cons_of_mem _ hr') heq
      exact hmem (hr'eq ▸ hr')

theorem traverseOption_forward {f : Task → Option Task} :
    ∀ {l rows : List Task}, traverseOption l f = some rows →
      ∀ t ∈ l, ∃ r, f t = some r ∧ r ∈ rows := by
  intro l
  induction l with
  | nil => intro rows _ t ht; cases ht
  | cons a l ih =>
    intro rows h t ht
    unfold traverseOption at h
    cases hfa : f a with
    | none => rw [hfa] at h; cases h
    | some b =>
      rw [hfa] at h
      cases hrec : traverseOption l f with
      | none => rw [hrec] at h; cases h
      | some bs =>
        rw [hrec] at h
        cases h
        rcases List.mem_cons.mp ht with rfl | ht
        · exact ⟨b, hfa, List.mem_cons_self _ _⟩
        · obtain ⟨r, hr1, hr2⟩ := ih hrec t ht
          exact ⟨r, hr1, List.mem_cons_of_mem _ hr2⟩

theorem traverseOption_backward {f : Task → Option Task} :
    ∀ {l rows : List Task}, traverseOption l f = some rows →
      ∀ r ∈ rows, ∃ t ∈ l, f t = some r := by
  intro l
  induction l with
  | nil =>
    intro rows h r hr
    unfold traverseOption at h
    cases h
    cases hr
  | cons a l ih =>
    intro rows h r hr
    unfold traverseOption at h
    cases hfa : f a with
    | none => rw [hfa] at h; cases h
    | some b =>
      rw [hfa] at h
      cases hrec : traverseOption l f with
      | none => rw [hrec] at h; cases h
      | some bs =>
        rw [hrec] at h
        cases h
        rcases List.mem_cons.mp hr with rfl | hr
        · exact ⟨a, List.mem_cons_self _ _, hfa⟩
        · obtain ⟨t, ht1, ht2⟩ := ih hrec r hr
          exact ⟨t, List.mem_cons_of_mem _ ht1, ht2⟩

/-! ## C1: branch date rebase -/

/-- C1 (amended): `RebaseBranchDates(n, Δ, "started")` adds Δ to the
`started` of every descendant of n and leaves every `deadline` exactly as it
was (and symmetrically for anchor `"deadline"`): only the anchored field is
shifted, so `deadline - started` of a descendant changes by ∓Δ rather than
being preserved.  Rows outside the branch are untouched. -/
theorem rebase_the_task_dates_shifts_only_anchored_field
    (db : List Task) (rootId : Nat) (diff : Int)
    (hNodup : (db.map Task.id).Nodup) :
    (∀ db', rebase_the_task_dates db rootId diff "started" = some db' →
      (∀ t ∈ db, (∀ b ∈ Task.get_child_branch db rootId, b.id ≠ t.id) →
        t ∈ db') ∧
      (∀ b ∈ Task.get_child_branch db rootId, ∃ s, b.started = some s ∧
        { b with started := some (s + diff) } ∈ db')) ∧
    (∀ db', rebase_the_task_dates db rootId diff "deadline" = some db' →
      (∀ t ∈ db, (∀ b ∈ Task.get_child_branch db rootId, b.id ≠ t.id) →
        t ∈ db') ∧
      (∀ b ∈ Task.get_child_branch db rootId, ∃ d, b.deadline = some d ∧
        { b with deadline := some (d + diff) } ∈ db')) := by
  have hbranchdb : ∀ b ∈ Task.get_child_branch db rootId, b ∈ db := by
    intro b hb
    unfold Task.get_child_branch at hb
    cases hfind : db.find? (fun t => t.id == rootId) with
    | none => rw [hfind] at hb; cases hb
    | some r => rw [hfind] at hb; exact (mem_cteLevels hb).1
  have hinj : ∀ x ∈ db, ∀ y ∈ db, x.id = y.id → x = y := by
    intro x hx y hy hxy
    exact List.inj_on_of_nodup_map hNodup hx hy hxy
  constructor
  all_goals
    intro db' hdb'
    unfold rebase_the_task_dates at hdb'
    rw [Option.map_eq_some'] at hdb'
    obtain ⟨rows, hrows, rfl⟩ := hdb'
    constructor
  · -- "started": untouched rows
    intro t ht hid
    refine mem_bulkUpdateTasks_of_not_mem ht fun r hr => ?_
    obtain ⟨b, hb, hfb⟩ := traverseOption_backward hrows r hr
    simp only [show (("started" : String) == "started") = true from rfl,
      if_true] at hfb
    obtain ⟨s, _, rfl⟩ := Option.map_eq_some'.mp hfb
    exact hid b hb
  · -- "started": shifted rows
    intro b hb
    obtain ⟨r, hfb, hrmem⟩ := traverseOption_forward hrows b hb
    simp only [show (("started" : String) == "started") = true from rfl,
      if_true] at hfb
    obtain ⟨s, hs, rfl⟩ := Option.map_eq_some'.mp hfb
    refine ⟨s, hs, mem_bulkUpdateTasks_of_mem hrmem ?_ ⟨b, hbranchdb b hb, rfl⟩⟩
    intro r' hr' hid
    obtain ⟨b', hb', hfb'⟩ := traverseOption_backward hrows r' hr'
    simp only [show (("started" : String) == "started") = true from rfl,
      if_true] at hfb'
    obtain ⟨s', hs', rfl⟩ := Option.map_eq_some'.mp hfb'
    have : b' = b := hinj b' (hbranchdb b' hb') b (hbranchdb b hb) hid
    subst this
    rw [hs'] at hs
    cases hs
    rfl
  · -- "deadline": untouched rows
    intro t ht hid
    refine mem_bulkUpdateTasks_of_not_mem ht fun r hr => ?_
    obtain ⟨b, hb, hfb⟩ := traverseOption_backward hrows r hr
    simp only [show (("deadline" : String) == "started") = false from rfl,
      Bool.false_eq_true, if_false] at hfb
    obtain ⟨d, _, rfl⟩ := Option.map_eq_some'.mp hfb
    exact hid b hb
  · -- "deadline": shifted rows
    intro b hb
    obtain ⟨r, hfb, hrmem⟩ := traverseOption_forward hrows b hb
    simp only [show (("deadline" : String) == "started") = false from rfl,
      Bool.false_eq_true, if_false] at hfb
    obtain ⟨d, hd, rfl⟩ := Option.map_eq_some'.mp hfb
    refine ⟨d, hd, mem_bulkUpdateTasks_of_mem hrmem ?_ ⟨b, hbranchdb b hb, rfl⟩⟩
    intro r' hr' hid
    obtain ⟨b', hb', hfb'⟩ := traverseOption_backward hrows r' hr'
    simp only [show (("deadline" : String) == "started") = false from rfl,
      Bool.false_eq_true, if_false] at hfb'
    obtain ⟨d', hd', rfl⟩ := Option.map_eq_some'.mp hfb'
    have : b' = b := hinj b' (hbranchdb b' hb') b (hbranchdb b hb) hid
    subst this
    rw [hd'] at hd
    cases hd
    rfl

theorem rebase_the_task_dates_shifts_only_anchored_field_witness :
    ∃ s, c1child.started = some s ∧
      { c1child with started := some (s + 600) } ∈ c1result :=
  ((rebase_the_task_dates_shifts_only_anchored_field c1db 0 600
    (by decide)).1 c1result rfl).2 c1child (by decide)

/-- C1 (counterexample): shifting the example branch by 600 with anchor
`"started"` moves the descendant to 1600 but leaves its deadline at 5000, so
the descendant span is 3400 afterwards instead of the original 4000 —
`deadline - started` is **not** preserved. -/
theorem rebase_the_task_dates_does_not_shift_deadline :
    rebase_the_task_dates c1db 0 600 "started" =
      some [c1root, { c1child with started := some 1600 }] ∧
    (5000 : Int) - 1600 ≠ 5000 - 1000 := by
  exact ⟨by decide, by decide⟩

/-! ## C7: sibling order rebase -/

/-- C7 (amended): after `Rebase(n, k, Z)` the node n itself and every row
whose id is not among the reassigned rows are untouched (in particular every
scope sibling at order < k); the reassigned rows are exactly the visible
scope siblings with order ≥ k, n excluded, taken ascending by their previous
order and renumbered **sequentially** to `k+1, k+2, …` in that relative
order — not to "previous order + 1", which only coincides when the old
orders were consecutive from k. -/
theorem rebase_tasks_order_spec (db : List Task) (instId : Nat) (k : Int)
    (parent project client : Option Nat)
    (hNodup : (db.map Task.id).Nodup) :
    (∀ t ∈ db,
      (∀ r ∈ rebase_tasks_order_saves db instId k parent project client,
        r.id ≠ t.id) →
      t ∈ rebase_tasks_order db instId k parent project client) ∧
    (∀ r ∈ rebase_tasks_order_saves db instId k parent project client,
      r ∈ rebase_tasks_order db instId k parent project client) ∧
    (∀ r ∈ rebase_tasks_order_saves db instId k parent project client,
      r.id ≠ instId) ∧
    (∀ t ∈ db, Task.visible t = true → t.parent_task = parent →
      t.project = project → t.client = client → t.order < k →
      ∀ r ∈ rebase_tasks_order_saves db instId k parent project client,
        r.id ≠ t.id) ∧
    (∃ origs : List Task,
      origs.Perm (db.filter fun t =>
        Task.visible t && decide (k ≤ t.order) && t.parent_task == parent &&
          t.project == project && t.client == client && t.id != instId) ∧
      List.Sorted taskOrdLE origs ∧
      rebase_tasks_order_saves db instId k parent project client =
        origs.enum.map fun p => { p.2 with order := k + ((p.1 : Int) + 1) }) := by
  have hsave_orig : ∀ r ∈ rebase_tasks_order_saves db instId k parent project client,
      ∃ orig, orig ∈ db ∧
        (Task.visible orig && decide (k ≤ orig.order) && orig.parent_task == parent &&
          orig.project == project && orig.client == client && orig.id != instId) = true ∧
        r.id = orig.id ∧ ∃ i : Nat, r = { orig with order := k + ((i : Int) + 1) } := by
    intro r hr
    unfold rebase_tasks_order_saves at hr
    obtain ⟨p, hp, rfl⟩ := List.mem_map.mp hr
    have hsnd := List.snd_mem_of_mem_enum hp
    have hfil := (List.perm_insertionSort taskOrdLE _).mem_iff.mp hsnd
    refine ⟨p.2, List.mem_of_mem_filter hfil, ?_, rfl, p.1, rfl⟩
    have hP := List.of_mem_filter hfil
    exact hP
  have hids : (rebase_tasks_order_saves db instId k parent project client).map Task.id
      = (List.insertionSort taskOrdLE (db.filter fun t =>
          Task.visible t && decide (k ≤ t.order) && t.parent_task == parent &&
            t.project == project && t.client == client && t.id != instId)).map Task.id := by
    unfold rebase_tasks_order_saves
    rw [List.map_map]
    have : (Task.id ∘ fun p : Nat × Task => { p.2 with order := k + ((p.1 : Int) + 1) })
        = Task.id ∘ Prod.snd := rfl
    rw [this, ← List.map_map, List.enum_map_snd]
  have hnodupSaves :
      ((rebase_tasks_order_saves db instId k parent project client).map Task.id).Nodup := by
    rw [hids]
    refine (List.Perm.nodup_iff (List.Perm.map Task.id
      (List.perm_insertionSort taskOrdLE _))).mpr ?_
    exact List.Nodup.sublist (List.Sublist.map Task.id (List.filter_sublist db)) hNodup
  have huniqSaves : ∀ r ∈ rebase_tasks_order_saves db instId k parent project client,
      ∀ r' ∈ rebase_tasks_order_saves db instId k parent project client,
      r'.id = r.id → r' = r := by
    intro r hr r' hr' he
    exact List.inj_on_of_nodup_map hnodupSaves hr' hr he
  have hinj : ∀ x ∈ db, ∀ y ∈ db, x.id = y.id → x = y :=
    fun x hx y hy hxy => List.inj_on_of_nodup_map hNodup hx hy hxy
  refine ⟨?_, ?_, ?_, ?_, ?_⟩
  · intro t ht hid
    exact mem_foldl_upsert_of_not_mem ht hid
  · intro r hr
    exact mem_foldl_upsert_of_mem hr fun r' h' he => huniqSaves r hr r' h' he
  · intro r hr
    obtain ⟨orig, _, hP, hrid, -⟩ := hsave_orig r hr
    simp only [Bool.and_eq_true, bne_iff_ne, ne_eq] at hP
    rw [hrid]
    exact hP.2
  · intro t ht hvis hpar hproj hcli hord r hr
    obtain ⟨orig, hodb, hP, hrid, -⟩ := hsave_orig r hr
    simp only [Bool.and_eq_true, decide_eq_true_eq, bne_iff_ne, ne_eq] at hP
    intro he
    have : orig = t := hinj orig hodb t ht (hrid ▸ he)
    subst this
    exact absurd hP.1.1.1.1.2 (not_le.mpr hord)
  · exact ⟨List.insertionSort taskOrdLE _, List.perm_insertionSort taskOrdLE _,
      List.sorted_insertionSort taskOrdLE _, rfl⟩

theorem rebase_tasks_order_spec_witness :
    ({ blankTask with id := 2, order := 3 } : Task) ∈
      rebase_tasks_order c7db 0 1 none none none :=
  (rebase_tasks_order_spec c7db 0 1 none none none (by decide)).2.1
    { blankTask with id := 2, order := 3 } (by decide)

/-- C7 (counterexample): with siblings at previous orders 1 and 5 and target
order k = 1, the sibling previously at 5 is renumbered to 3 (sequential
reassignment), not to 6 (previous order + 1) as the claim states. -/
theorem rebase_tasks_order_renumbers_gapped_sibling :
    rebase_tasks_order c7db 0 1 none none none =
      [{ blankTask with id := 0, order := 1 },
       { blankTask with id := 1, order := 2 },
       { blankTask with id := 2, order := 3 }] ∧
    ((3 : Int) ≠ 5 + 1) := by
  exact ⟨by decide, by decide⟩

/-! ## C8: default order assignment -/

theorem desc_head_max (l : List Task) (hne : l ≠ []) :
    ∃ t, (List.insertionSort taskOrdGE l).head? = some t ∧ t ∈ l ∧
      ∀ u ∈ l, u.order ≤ t.order := by
  cases hs : List.insertionSort taskOrdGE l with
  | nil =>
    have hperm := List.perm_insertionSort taskOrdGE l
    rw [hs] at hperm
    exact absurd hperm.symm.eq_nil hne
  | cons a rest =>
    have hperm := List.perm_insertionSort taskOrdGE l
    rw [hs] at hperm
    have hsorted := List.sorted_insertionSort taskOrdGE l
    rw [hs] at hsorted
    refine ⟨a, rfl, hperm.mem_iff.mp (List.mem_cons_self a rest), ?_⟩
    intro u hu
    rcases List.mem_cons.mp (hperm.mem_iff.mpr hu) with rfl | hmem
    · exact le_refl _
    · exact List.rel_of_sorted_cons hsorted u hmem

theorem stamp_preserves (db : List Task) (inst : Task) (now : Int) :
    (stamp_status_assigned_date db inst now).order = inst.order ∧
    (stamp_status_assigned_date db inst now).project = inst.project ∧
    (stamp_status_assigned_date db inst now).id = inst.id := by
  unfold stamp_status_assigned_date
  dsimp only
  repeat' split
  all_goals exact ⟨rfl, rfl, rfl⟩

/-- C8 (amended): a node saved with a non-zero order keeps it; a node saved
with order 0 gets `max + 1` where the maximum ranges over the non-deleted,
non-template tasks of the **same project only** — any parent and any tenant —
excluding the node itself (1 when the project has no other visible task). -/
theorem default_order_is_project_max_plus_one (db : List Task) (inst : Task)
    (now : Int) :
    (inst.order ≠ 0 →
      (set_order_for_task_and_status_date db inst now).order = inst.order) ∧
    (inst.order = 0 →
      ((db.filter fun t =>
          Task.visible t && t.project == inst.project && t.id != inst.id) = [] →
        (set_order_for_task_and_status_date db inst now).order = 1) ∧
      ((db.filter fun t =>
          Task.visible t && t.project == inst.project && t.id != inst.id) ≠ [] →
        ∃ t ∈ db.filter fun t =>
            Task.visible t && t.project == inst.project && t.id != inst.id,
          (set_order_for_task_and_status_date db inst now).order = t.order + 1 ∧
          ∀ u ∈ db.filter fun t =>
              Task.visible t && t.project == inst.project && t.id != inst.id,
            u.order ≤ t.order)) := by
  obtain ⟨hord, hproj, hid⟩ := stamp_preserves db inst now
  unfold set_order_for_task_and_status_date
  dsimp only
  rw [hord, hproj, hid]
  constructor
  · intro hne
    rw [if_neg (by simpa using hne)]
    exact hord
  · intro h0
    rw [if_pos (by simpa using h0)]
    constructor
    · intro hempty
      rw [hempty]
      simp [hord, h0]
    · intro hnonempty
      obtain ⟨t, hhead, htmem, hmax⟩ := desc_head_max _ hnonempty
      refine ⟨t, htmem, ?_, hmax⟩
      rw [hhead]
      simp [hord, h0]

theorem default_order_is_project_max_plus_one_witness :
    (set_order_for_task_and_status_date [] blankTask 0).order = 1 :=
  ((default_order_is_project_max_plus_one [] blankTask 0).2 rfl).1 rfl

/-- C8 (counterexample): the only other task of the project lives under a
different parent and a different tenant, so under the claimed full scope the
node would get order 1; the code scopes by project alone and assigns
`7 + 1 = 8`. -/
theorem default_order_ignores_parent_and_tenant_scope :
    (set_order_for_task_and_status_date
      [{ blankTask with
         id := 5
         project := some 1
         parent_task := some 9
         client := some 2
         order := 7 }]
      { blankTask with id := 0, project := some 1, client := some 1 }
      0).order = 8 ∧
    assignDefaultOrderSpec
      [{ blankTask with
         id := 5
         project := some 1
         parent_task := some 9
         client := some 2
         order := 7 }]
      { blankTask with id := 0, project := some 1, client := some 1 } = 1 ∧
    ((8 : Int) ≠ 1) := by
  exact ⟨by decide, by decide, by decide⟩

/-! ## C4: atomicity of multi-write operations -/

theorem allOrNothing_of_length_le_one (s : Store) (bs : List (List Write))
    (h : bs.length ≤ 1) : AllOrNothing s bs := by
  intro j
  match bs, h with
  | [], _ => left; cases j <;> rfl
  | [b], _ =>
    cases j with
    | zero => left; rfl
    | succ j => right; rw [List.take_succ_cons, List.take_nil]

theorem repeated_task_creator_trace_length_le (dbT : List Task)
    (dbB : List TaskBacklog) (dbR : List TaskResource) (inst : Task)
    (rrule : Option RRuleEval) (byF : String) (commit : Bool)
    (maxCount freshBase : Nat) :
    (repeated_task_creator_trace dbT dbB dbR inst rrule byF commit maxCount
      freshBase).length ≤ 1 := by
  unfold repeated_task_creator_trace
  split
  · simp
  · split <;> simp

theorem rebase_the_task_dates_trace_length_le (db : List Task)
    (parentId : Nat) (diff : Int) (byF : String) :
    (rebase_the_task_dates_trace db parentId diff byF).length ≤ 1 := by
  unfold rebase_the_task_dates_trace
  split <;> (dsimp only; split <;> simp)

/-- C4 (amended): of the embedded multi-write operations only
`GenerateRecurringInstances` with commit (three `bulk_create`s inside one
`transaction.atomic()`) and `RebaseBranchDates` (a single `bulk_update`
statement) are all-or-nothing: their write traces never exceed one atomic
batch, so interrupting them leaves the store untouched or fully updated. -/
theorem date_rebase_and_recurrence_commit_are_atomic :
    (∀ (s : Store) (dbT : List Task) (dbB : List TaskBacklog)
       (dbR : List TaskResource) (inst : Task) (rrule : Option RRuleEval)
       (byF : String) (commit : Bool) (maxCount freshBase : Nat),
      (repeated_task_creator_trace dbT dbB dbR inst rrule byF commit maxCount
        freshBase).length ≤ 1 ∧
      AllOrNothing s (repeated_task_creator_trace dbT dbB dbR inst rrule byF
        commit maxCount freshBase)) ∧
    (∀ (s : Store) (db : List Task) (parentId : Nat) (diff : Int)
       (byF : String),
      (rebase_the_task_dates_trace db parentId diff byF).length ≤ 1 ∧
      AllOrNothing s (rebase_the_task_dates_trace db parentId diff byF)) := by
  constructor
  · intro s dbT dbB dbR inst rrule byF commit maxCount freshBase
    refine ⟨repeated_task_creator_trace_length_le _ _ _ _ _ _ _ _ _, ?_⟩
    exact allOrNothing_of_length_le_one s _
      (repeated_task_creator_trace_length_le _ _ _ _ _ _ _ _ _)
  · intro s db parentId diff byF
    refine ⟨rebase_the_task_dates_trace_length_le _ _ _ _, ?_⟩
    exact allOrNothing_of_length_le_one s _
      (rebase_the_task_dates_trace_length_le _ _ _ _)

/-- C4 (counterexample): `Rebase` writes one row per shifted sibling with no
transaction (two batches here), and `CloneSubtree` (project duplication)
saves the project clone before bulk-creating the tasks (three batches):
stopping either after its first batch leaves a store that is neither the
original nor the final one — the all-writes-or-none claim fails for both. -/
theorem order_rebase_and_project_clone_not_atomic :
    (rebase_tasks_order_trace c4db 0 1 none none none).length = 2 ∧
    ¬ AllOrNothing store0 (rebase_tasks_order_trace c4db 0 1 none none none) ∧
    duplicate_project_trace [c4projTask] c4proj (fun p => p) true none none 100 =
      .ok c4dpTrace ∧
    c4dpTrace.length = 3 ∧
    ¬ AllOrNothing store1 c4dpTrace := by
  refine ⟨by decide, ?_, rfl, by decide, ?_⟩
  · intro h
    rcases h 1 with h1 | h1 <;> revert h1 <;> decide
  · intro h
    rcases h 1 with h1 | h1 <;> revert h1 <;> decide

end Scrum
